import Mathlib

/-!
# Verification of the bmaduum lifecycle engine

A shallow embedding of the core of the `bmaduum` command-line orchestrator
(Go, `elockard/bmaduum`): the status store (`internal/status`), the router
(`internal/router`), the lifecycle executor (`internal/lifecycle` — compiled
into `internal/manifest/manifest.go` in this snapshot), the bmad-help
fallback resolver (`internal/bmadhelp`), and the streaming event parser
(`internal/claude`).  Pure Go functions become Lean functions; file-system
and subprocess effects become explicit state passing; external library
calls (YAML, JSON decoding) become function parameters.
-/

namespace Bmaduum

/-! ## Status values (`internal/status`)

The Go source file declaring `type Status string` and its constants is not
part of this snapshot (only its callers and tests are). -/

/-- Modelled from the spec: the `status.Status` type is a tagged string;
the recognised set is {`backlog`, `ready-for-dev`, `in-progress`,
`review`, `done`} (spec §3, and the constant names used throughout
`internal/router/router.go`). -/
abbrev Status := String

def StatusBacklog : Status := "backlog"

def StatusReadyForDev : Status := "ready-for-dev"

def StatusInProgress : Status := "in-progress"

def StatusReview : Status := "review"

def StatusDone : Status := "done"

/-- Modelled from the spec: `Status.IsValid` checks membership in the closed
recognised set (spec §3; `writer.go` calls it to validate a new status). -/
def Status.IsValid (s : Status) : Bool :=
  s == StatusBacklog || s == StatusReadyForDev || s == StatusInProgress ||
    s == StatusReview || s == StatusDone

/-! ## Router (`internal/router/router.go`) -/

/-- `chainStep` — internal representation of a step in the workflow chain. -/
structure chainStep where
  Workflow : String
  NextStatus : Status
deriving DecidableEq, Repr

/-- `LifecycleStep` — a single step in the lifecycle sequence
(`internal/router`, LifecycleStep struct). -/
structure LifecycleStep where
  Workflow : String
  NextStatus : Status
  Model : String := ""
deriving DecidableEq, Repr

/-- Sentinel errors `ErrStoryComplete` / `ErrUnknownStatus` of the router. -/
inductive RouterErr where
  | storyComplete
  | unknownStatus
deriving DecidableEq, Repr

/-- `Router` — Go maps become association lists with Go-map semantics
(lookup finds the unique binding; assignment replaces it). -/
structure Router where
  statusWorkflow : List (Status × String)
  chain : List chainStep
  statusChainIndex : List (Status × Nat)
deriving DecidableEq, Repr

/-- Go map assignment `m[k] = v`: replace the binding if present, else add. -/
def mapAssign {β : Type} (m : List (Status × β)) (k : Status) (v : β) :
    List (Status × β) :=
  if m.any (fun p => p.1 == k) then
    m.map (fun p => if p.1 == k then (k, v) else p)
  else m ++ [(k, v)]

/-- `NewRouter` — the default hardcoded router. -/
def NewRouter : Router :=
  { statusWorkflow := [
      (StatusBacklog, "create-story"),
      (StatusReadyForDev, "dev-story"),
      (StatusInProgress, "dev-story"),
      (StatusReview, "code-review")],
    chain := [
      ⟨"create-story", StatusReadyForDev⟩,
      ⟨"dev-story", StatusReview⟩,
      ⟨"code-review", StatusDone⟩,
      ⟨"git-commit", StatusDone⟩],
    statusChainIndex := [
      (StatusBacklog, 0),
      (StatusReadyForDev, 1),
      (StatusInProgress, 1),
      (StatusReview, 2)] }

/-- `GetWorkflow` — single workflow for a status. -/
def Router.GetWorkflow (r : Router) (s : Status) : Except RouterErr String :=
  if s == StatusDone then .error .storyComplete
  else
    match r.statusWorkflow.lookup s with
    | none => .error .unknownStatus
    | some workflow => .ok workflow

/-- `GetLifecycle` — remaining lifecycle steps from a status. -/
def Router.GetLifecycle (r : Router) (s : Status) :
    Except RouterErr (List LifecycleStep) :=
  if s == StatusDone then .error .storyComplete
  else
    match r.statusChainIndex.lookup s with
    | none => .error .unknownStatus
    | some startIdx =>
        .ok ((r.chain.drop startIdx).map
          (fun cs => { Workflow := cs.Workflow, NextStatus := cs.NextStatus }))

/-! ## Manifest-driven construction (`NewRouterFromManifest`) -/

/-- `WorkflowEntry` — one row of the workflow manifest CSV
(`internal/manifest/manifest.go`). -/
structure WorkflowEntry where
  Phase : String := ""
  Workflow : String
  Agent : String := ""
  Command : String := ""
  TriggerStatus : String := ""
  NextStatus : String := ""
deriving DecidableEq, Repr

/-- The loop body of `NewRouterFromManifest`: iterate manifest entries in
order, appending each first-seen workflow to the chain and registering
trigger-status mappings.  The Go `seen` set is exactly the set of workflow
names already in the chain. -/
def routerAddEntry (r : Router) (entry : WorkflowEntry) : Router :=
  if r.chain.any (fun step => step.Workflow == entry.Workflow) then
    -- already in the chain: only add the trigger-status mapping; the
    -- registered index is the first chain position of this workflow
    if entry.TriggerStatus ≠ "" then
      match r.chain.findIdx? (fun step => step.Workflow == entry.Workflow) with
      | some i =>
          { r with
            statusWorkflow := mapAssign r.statusWorkflow entry.TriggerStatus entry.Workflow,
            statusChainIndex := mapAssign r.statusChainIndex entry.TriggerStatus i }
      | none =>
          { r with
            statusWorkflow := mapAssign r.statusWorkflow entry.TriggerStatus entry.Workflow }
    else r
  else
    -- new workflow: append to the chain; the registered index is
    -- `len(chain) - 1` after the append
    if entry.TriggerStatus ≠ "" then
      { r with
        chain := r.chain ++ [⟨entry.Workflow, entry.NextStatus⟩],
        statusWorkflow := mapAssign r.statusWorkflow entry.TriggerStatus entry.Workflow,
        statusChainIndex := mapAssign r.statusChainIndex entry.TriggerStatus
          ((r.chain ++ [(⟨entry.Workflow, entry.NextStatus⟩ : chainStep)]).length - 1) }
    else { r with chain := r.chain ++ [⟨entry.Workflow, entry.NextStatus⟩] }

/-- `NewRouterFromManifest` — build a router from manifest entries in order. -/
def NewRouterFromManifest (entries : List WorkflowEntry) : Router :=
  entries.foldl routerAddEntry
    { statusWorkflow := [], chain := [], statusChainIndex := [] }

/-- `InsertStepAfter` — insert a new step after the named workflow;
no-op when the new workflow already exists or when `afterWorkflow` is
absent; indices ≥ the insertion point shift by one. -/
def Router.InsertStepAfter (r : Router) (afterWorkflow newWorkflow : String)
    (nextStatus : Status) : Router :=
  if r.chain.any (fun step => step.Workflow == newWorkflow) then r
  else
    match r.chain.findIdx? (fun step => step.Workflow == afterWorkflow) with
    | none => r
    | some i =>
        let insertIdx := i + 1
        { r with
          chain := r.chain.take insertIdx ++ [⟨newWorkflow, nextStatus⟩] ++
            r.chain.drop insertIdx,
          statusChainIndex := r.statusChainIndex.map
            (fun p => if insertIdx ≤ p.2 then (p.1, p.2 + 1) else p) }

/-- The recognised non-terminal statuses of the default router. -/
def recognizedStatuses : List Status :=
  [StatusBacklog, StatusReadyForDev, StatusInProgress, StatusReview]

/-- Projection of a chain step to a lifecycle step, as `GetLifecycle` builds it. -/
def chainStep.toLifecycle (cs : chainStep) : LifecycleStep :=
  { Workflow := cs.Workflow, NextStatus := cs.NextStatus }

/-- A status outside the recognised set and different from `done` is routed
to the `UnknownStatus` sentinel by the default router. -/
theorem default_getLifecycle_unknown (s : Status)
    (h1 : s ≠ StatusBacklog) (h2 : s ≠ StatusReadyForDev)
    (h3 : s ≠ StatusInProgress) (h4 : s ≠ StatusReview) (h5 : s ≠ StatusDone) :
    NewRouter.GetLifecycle s = .error .unknownStatus := by
  simp only [Router.GetLifecycle, NewRouter, List.lookup]
  rw [if_neg (by simpa using h5)]
  simp only [show (s == StatusBacklog) = false by simpa using h1,
    show (s == StatusReadyForDev) = false by simpa using h2,
    show (s == StatusInProgress) = false by simpa using h3,
    show (s == StatusReview) = false by simpa using h4]

/-- C4: For every status in the recognised set, `Router.GetLifecycle` on the
default router succeeds with the non-empty suffix of the chain starting at
the status's mapped index; `done` yields the `StoryComplete` sentinel; every
other status yields the `UnknownStatus` sentinel; and a successful result is
never the empty list. -/
theorem C4_routing_totality :
    (∀ s ∈ recognizedStatuses, ∃ i,
      NewRouter.statusChainIndex.lookup s = some i ∧
      NewRouter.GetLifecycle s =
        .ok ((NewRouter.chain.drop i).map chainStep.toLifecycle) ∧
      (NewRouter.chain.drop i).map chainStep.toLifecycle ≠ []) ∧
    NewRouter.GetLifecycle StatusDone = .error .storyComplete ∧
    (∀ s : Status, s ∉ recognizedStatuses → s ≠ StatusDone →
      NewRouter.GetLifecycle s = .error .unknownStatus) ∧
    (∀ (s : Status) (steps : List LifecycleStep),
      NewRouter.GetLifecycle s = .ok steps → steps ≠ []) := by
  refine ⟨?_, rfl, ?_, ?_⟩
  · intro s hs
    fin_cases hs
    · exact ⟨0, rfl, rfl, by decide⟩
    · exact ⟨1, rfl, rfl, by decide⟩
    · exact ⟨1, rfl, rfl, by decide⟩
    · exact ⟨2, rfl, rfl, by decide⟩
  · intro s hs hd
    simp only [recognizedStatuses, List.mem_cons, List.mem_singleton, not_or] at hs
    obtain ⟨h1, h2, h3, h4⟩ := hs
    exact default_getLifecycle_unknown s h1 h2 h3 (by simpa using h4) hd
  · intro s steps h
    by_cases h1 : s = StatusBacklog
    · subst h1; simp only [show NewRouter.GetLifecycle StatusBacklog =
        .ok [⟨"create-story", StatusReadyForDev, ""⟩, ⟨"dev-story", StatusReview, ""⟩,
          ⟨"code-review", StatusDone, ""⟩, ⟨"git-commit", StatusDone, ""⟩] from rfl] at h
      cases h; decide
    · by_cases h2 : s = StatusReadyForDev
      · subst h2; simp only [show NewRouter.GetLifecycle StatusReadyForDev =
          .ok [⟨"dev-story", StatusReview, ""⟩, ⟨"code-review", StatusDone, ""⟩,
            ⟨"git-commit", StatusDone, ""⟩] from rfl] at h
        cases h; decide
      · by_cases h3 : s = StatusInProgress
        · subst h3; simp only [show NewRouter.GetLifecycle StatusInProgress =
            .ok [⟨"dev-story", StatusReview, ""⟩, ⟨"code-review", StatusDone, ""⟩,
              ⟨"git-commit", StatusDone, ""⟩] from rfl] at h
          cases h; decide
        · by_cases h4 : s = StatusReview
          · subst h4; simp only [show NewRouter.GetLifecycle StatusReview =
              .ok [⟨"code-review", StatusDone, ""⟩, ⟨"git-commit", StatusDone, ""⟩] from rfl] at h
            cases h; decide
          · by_cases h5 : s = StatusDone
            · subst h5
              simp only [Router.GetLifecycle, beq_self_eq_true, if_true] at h
              exact Except.noConfusion h
            · rw [default_getLifecycle_unknown s h1 h2 h3 h4 h5] at h
              cases h

/-- Witness for C4: the unknown-status case evaluated at `pending-qa` and
the recognised case evaluated at `review`. -/
theorem C4_routing_totality_witness :
    NewRouter.GetLifecycle "pending-qa" = .error .unknownStatus ∧
    (∃ i, NewRouter.statusChainIndex.lookup StatusReview = some i ∧
      NewRouter.GetLifecycle StatusReview =
        .ok ((NewRouter.chain.drop i).map chainStep.toLifecycle) ∧
      (NewRouter.chain.drop i).map chainStep.toLifecycle ≠ []) :=
  ⟨C4_routing_totality.2.2.1 "pending-qa" (by decide) (by decide),
   C4_routing_totality.1 StatusReview (by decide)⟩

/-! ## Lifecycle executor (`internal/lifecycle`)

The executor is written against interfaces (`WorkflowRunner`, `StatusReader`,
`StatusWriter`, `BmadHelpFallback`, `ProgressCallback`).  Interface values
become function fields over an abstract world state `σ`, threaded explicitly;
Go `error` values from collaborators become an abstract error type `ε`. -/

/-- `maxBmadHelpDepth` — limit on recursive `Execute` calls through the
bmad-help fallback. -/
def maxBmadHelpDepth : Nat := 3

/-- The distinct error outcomes of `Executor.Execute`:
collaborator errors propagated as-is, router sentinels, the depth-exceeded
error, the wrapped fallback failure, and the workflow-failure error carrying
the phase name and exit code. -/
inductive ExecError (ε : Type) where
  | external (e : ε)
  | routerErr (re : RouterErr)
  | depthExceeded (s : Status)
  | fallbackFailed (s : Status) (e : ε)
  | workflowFailed (workflow : String) (exitCode : Int)
deriving DecidableEq, Repr

/-- `Executor` — dependency-injected collaborators over world state `σ`. -/
structure Executor (σ ε : Type) where
  runner : σ → String → String → σ × Int
  statusReader : σ → String → Except ε Status
  statusWriter : σ → String → Status → σ × Option ε
  progressCallback : Option (σ → Nat → Nat → String → σ) := none
  router : Option Router := none
  bmadHelp : Option (σ → String → Status → σ × Except ε (String × Status)) := none

/-- `getLifecycle` — the configured router, or the package-level default. -/
def Executor.getLifecycle {σ ε : Type} (e : Executor σ ε) (s : Status) :
    Except RouterErr (List LifecycleStep) :=
  match e.router with
  | some r => r.GetLifecycle s
  | none => NewRouter.GetLifecycle s

/-- The step loop of `executeWithDepth`: for each step (1-based `idx` of
`totalSteps`) invoke the progress callback, run the workflow, stop at the
first non-zero exit code with a workflow-failure error, otherwise persist
the next status and stop at the first update error. -/
def Executor.runSteps {σ ε : Type} (e : Executor σ ε) (storyKey : String)
    (totalSteps : Nat) : List LifecycleStep → Nat → σ → σ × Option (ExecError ε)
  | [], _, s => (s, none)
  | step :: rest, idx, s =>
    let s := match e.progressCallback with
      | some cb => cb s idx totalSteps step.Workflow
      | none => s
    match e.runner s step.Workflow storyKey with
    | (s, exitCode) =>
      if exitCode ≠ 0 then (s, some (.workflowFailed step.Workflow exitCode))
      else
        match e.statusWriter s storyKey step.NextStatus with
        | (s, some err) => (s, some (.external err))
        | (s, none) => e.runSteps storyKey totalSteps rest (idx + 1) s

/-- `executeWithDepth` — read the current status, resolve the remaining
chain (or a one-element synthetic chain from the bmad-help fallback when
the status is unrecognised and the depth limit not yet reached), run the
steps fail-fast, and when the chain was fallback-derived recurse with
`depth + 1`. -/
def Executor.executeWithDepth {σ ε : Type} (e : Executor σ ε)
    (storyKey : String) (depth : Nat) (s : σ) : σ × Except (ExecError ε) Unit :=
  match e.statusReader s storyKey with
  | .error err => (s, .error (.external err))
  | .ok currentStatus =>
    match e.getLifecycle currentStatus, e.bmadHelp with
    | .error .unknownStatus, some help =>
      if h : maxBmadHelpDepth ≤ depth then
        (s, .error (.depthExceeded currentStatus))
      else
        match help s storyKey currentStatus with
        | (s, .error helpErr) => (s, .error (.fallbackFailed currentStatus helpErr))
        | (s, .ok (workflow, nextStatus)) =>
          let steps : List LifecycleStep := [⟨workflow, nextStatus, ""⟩]
          match e.runSteps storyKey steps.length steps 1 s with
          | (s, some err) => (s, .error err)
          | (s, none) => e.executeWithDepth storyKey (depth + 1) s
    | .error re, _ => (s, .error (.routerErr re))
    | .ok steps, _ =>
      match e.runSteps storyKey steps.length steps 1 s with
      | (s, some err) => (s, .error err)
      | (s, none) => (s, .ok ())
termination_by maxBmadHelpDepth + 1 - depth
decreasing_by simp only [maxBmadHelpDepth] at *; omega

/-- `Execute` — run the full remaining chain, starting at depth 0. -/
def Executor.Execute {σ ε : Type} (e : Executor σ ε) (storyKey : String)
    (s : σ) : σ × Except (ExecError ε) Unit :=
  e.executeWithDepth storyKey 0 s

/-! ### C1 — fallback depth limit -/

/-- World state for the fallback-depth scenario: the story's persisted
status and the number of fallback invocations so far. -/
structure C1State where
  cur : Status
  fallbackCalls : Nat
deriving DecidableEq, Repr

/-- Scenario executor for the fallback-depth claim: the reader returns the
persisted status, every workflow run exits 0, every status update succeeds,
and the installed fallback returns `f k` on its `k`-th invocation (0-based)
while counting invocations. -/
def C1Exec (r : Option Router) (f : Nat → String × Status) :
    Executor C1State String :=
  { runner := fun s _ _ => (s, 0),
    statusReader := fun s _ => .ok s.cur,
    statusWriter := fun s _ ns => ({ s with cur := ns }, none),
    router := r,
    bmadHelp := some (fun s _ _ =>
      ({ s with fallbackCalls := s.fallbackCalls + 1 }, .ok (f s.fallbackCalls))) }

/-- One fallback round: at depth `d < 3` with an unrecognised status, the
executor calls the fallback once, runs its recommendation, persists the
(again unrecognised) next status, and recurses at depth `d + 1`. -/
theorem C1_step (r : Option Router) (f : Nat → String × Status) (key : String)
    (d c : Nat) (st : Status) (hd : d < maxBmadHelpDepth)
    (hst : (C1Exec r f).getLifecycle st = .error .unknownStatus) :
    (C1Exec r f).executeWithDepth key d ⟨st, c⟩ =
      (C1Exec r f).executeWithDepth key (d + 1) ⟨(f c).2, c + 1⟩ := by
  rw [Executor.executeWithDepth]
  simp only [show (C1Exec r f).statusReader ⟨st, c⟩ key = .ok st from rfl]
  rw [hst]
  simp only [show (C1Exec r f).bmadHelp = some (fun s _ _ =>
    ({ s with fallbackCalls := s.fallbackCalls + 1 }, .ok (f s.fallbackCalls)))
    from rfl]
  rw [dif_neg (by omega)]
  simp only [Executor.runSteps,
    show (C1Exec r f).progressCallback = none from rfl]
  rfl

/-- At depth 3 with an unrecognised status, the executor returns the
depth-exceeded error without touching the fallback. -/
theorem C1_stop (r : Option Router) (f : Nat → String × Status) (key : String)
    (c : Nat) (st : Status)
    (hst : (C1Exec r f).getLifecycle st = .error .unknownStatus) :
    (C1Exec r f).executeWithDepth key maxBmadHelpDepth ⟨st, c⟩ =
      (⟨st, c⟩, .error (.depthExceeded st)) := by
  rw [Executor.executeWithDepth]
  simp only [show (C1Exec r f).statusReader ⟨st, c⟩ key = .ok st from rfl]
  rw [hst]
  simp only [show (C1Exec r f).bmadHelp = some (fun s _ _ =>
    ({ s with fallbackCalls := s.fallbackCalls + 1 }, .ok (f s.fallbackCalls)))
    from rfl]
  rw [dif_pos (le_refl _)]

/-- C1: when the persisted status is unrecognised, a fallback is installed,
and every fallback recommendation's workflow succeeds with an again
unrecognised `next_status`, `Execute` terminates after exactly 3 fallback
invocations and returns the fallback-depth-exceeded error. -/
theorem C1_fallback_depth_limit (r : Option Router) (f : Nat → String × Status)
    (key : String) (s0 : Status)
    (h0 : (C1Exec r f).getLifecycle s0 = .error .unknownStatus)
    (hf : ∀ k, (C1Exec r f).getLifecycle (f k).2 = .error .unknownStatus) :
    (C1Exec r f).Execute key ⟨s0, 0⟩ =
      (⟨(f 2).2, 3⟩, .error (.depthExceeded (f 2).2)) := by
  rw [Executor.Execute,
    C1_step r f key 0 0 s0 (by simp [maxBmadHelpDepth]) h0,
    C1_step r f key 1 1 (f 0).2 (by simp [maxBmadHelpDepth]) (hf 0),
    C1_step r f key 2 2 (f 1).2 (by simp [maxBmadHelpDepth]) (hf 1)]
  exact C1_stop r f key 3 (f 2).2 (hf 2)

/-- Witness for C1: the default router, initial status `pending-qa`, a
fallback that always recommends `dev-story` with unrecognised next status
`weird-status`. -/
theorem C1_fallback_depth_limit_witness :
    (C1Exec none (fun _ => ("dev-story", "weird-status"))).Execute "S"
        ⟨"pending-qa", 0⟩ =
      (⟨"weird-status", 3⟩, .error (.depthExceeded "weird-status")) :=
  C1_fallback_depth_limit none (fun _ => ("dev-story", "weird-status")) "S"
    "pending-qa" rfl (fun _ => rfl)

/-! ### C2 — fail-fast -/

/-- World state for the fail-fast scenario: counts of workflow invocations
and of status updates. -/
structure C2State where
  runs : Nat
  updates : Nat
deriving DecidableEq, Repr

/-- Scenario executor for the fail-fast claim: the reader returns the fixed
status `s0`, the `i`-th workflow invocation (0-based) exits with
`exitOf i`, and every status update succeeds; both are counted. -/
def C2Exec (r : Option Router) (exitOf : Nat → Int) (s0 : Status) :
    Executor C2State String :=
  { runner := fun s _ _ => ({ s with runs := s.runs + 1 }, exitOf s.runs),
    statusReader := fun _ _ => .ok s0,
    statusWriter := fun s _ _ => ({ s with updates := s.updates + 1 }, none),
    router := r }

/-- The step loop under the fail-fast scenario: with `j` leading successful
exits and a non-zero exit at relative position `j`, the loop performs
`j + 1` runs and `j` updates and stops with the workflow-failure error of
the `j`-th remaining step. -/
theorem C2_runSteps (r : Option Router) (exitOf : Nat → Int) (s0 : Status)
    (key : String) (total : Nat) :
    ∀ (steps : List LifecycleStep) (j idx ru u : Nat) (hj : j < steps.length),
    (∀ i, i < j → exitOf (ru + i) = 0) → exitOf (ru + j) ≠ 0 →
    (C2Exec r exitOf s0).runSteps key total steps idx ⟨ru, u⟩ =
      (⟨ru + j + 1, u + j⟩,
        some (.workflowFailed (steps.get ⟨j, hj⟩).Workflow (exitOf (ru + j)))) := by
  intro steps
  induction steps with
  | nil => intro j idx ru u hj; exact absurd hj (by simp)
  | cons step rest ih =>
    intro j idx ru u hj hok hfail
    match j with
    | 0 =>
      simp only [Executor.runSteps,
        show (C2Exec r exitOf s0).progressCallback = none from rfl,
        show ∀ s w k, (C2Exec r exitOf s0).runner s w k =
          ({ s with runs := s.runs + 1 }, exitOf s.runs) from fun _ _ _ => rfl]
      rw [if_pos (by simpa using hfail)]
      simp
    | jj + 1 =>
      have h0 : exitOf ru = 0 := by simpa using hok 0 (by omega)
      simp only [Executor.runSteps,
        show (C2Exec r exitOf s0).progressCallback = none from rfl,
        show ∀ s w k, (C2Exec r exitOf s0).runner s w k =
          ({ s with runs := s.runs + 1 }, exitOf s.runs) from fun _ _ _ => rfl]
      rw [if_neg (by simp [h0])]
      simp only [show ∀ s k ns, (C2Exec r exitOf s0).statusWriter s k ns =
        ({ s with updates := s.updates + 1 }, none) from fun _ _ _ => rfl]
      have step1 := ih jj (idx + 1) (ru + 1) (u + 1) (by simpa using hj)
        (fun i hi => by
          have h2 := hok (i + 1) (by omega)
          have e : ru + 1 + i = ru + (i + 1) := by omega
          rw [e]; exact h2)
        (by
          have e : ru + 1 + jj = ru + (jj + 1) := by omega
          rw [e]; exact hfail)
      rw [step1]
      have e1 : ru + 1 + jj = ru + (jj + 1) := by omega
      have e2 : u + 1 + jj = u + (jj + 1) := by omega
      rw [e1, e2]
      rfl

/-- C2: for a story whose recognised status routes to a chain of `n`
remaining phases, if phases `1..k-1` exit 0 and phase `k` exits with a
non-zero code `c`, `Execute` performs exactly `k` workflow invocations and
exactly `k-1` status updates, attempts no later step, and returns the
workflow-failure error naming phase `k` and its exit code. -/
theorem C2_fail_fast (r : Option Router) (exitOf : Nat → Int) (s0 : Status)
    (key : String) (steps : List LifecycleStep) (k : Nat) (c : Int)
    (hsteps : (C2Exec r exitOf s0).getLifecycle s0 = .ok steps)
    (hk1 : 1 ≤ k) (hk : k ≤ steps.length)
    (hok : ∀ i, i < k - 1 → exitOf i = 0)
    (hfail : exitOf (k - 1) = c) (hc : c ≠ 0) :
    (C2Exec r exitOf s0).Execute key ⟨0, 0⟩ =
      (⟨k, k - 1⟩,
        .error (.workflowFailed
          (steps.get ⟨k - 1, by omega⟩).Workflow c)) := by
  rw [Executor.Execute, Executor.executeWithDepth]
  simp only [show ∀ s kk, (C2Exec r exitOf s0).statusReader s kk = .ok s0
    from fun _ _ => rfl]
  rw [hsteps]
  simp only [show (C2Exec r exitOf s0).bmadHelp = none from rfl]
  rw [C2_runSteps r exitOf s0 key steps.length steps (k - 1) 1 0 0 (by omega)
    (by simpa using hok) (by simp [hfail, hc])]
  simp only [Nat.zero_add]
  rw [hfail]
  have hkk : k - 1 + 1 = k := by omega
  rw [hkk]

/-- Witness for C2: the default router, status `backlog` (4-phase chain),
first phase exits 0 and the second exits 7: two runs, one update, failure
names `dev-story` with exit code 7. -/
theorem C2_fail_fast_witness :
    (C2Exec none (fun i => if i = 0 then 0 else 7) "backlog").Execute "S" ⟨0, 0⟩ =
      (⟨2, 1⟩, .error (.workflowFailed "dev-story" 7)) := by
  have := C2_fail_fast none (fun i => if i = 0 then 0 else 7) "backlog" "S"
    [⟨"create-story", StatusReadyForDev, ""⟩, ⟨"dev-story", StatusReview, ""⟩,
      ⟨"code-review", StatusDone, ""⟩, ⟨"git-commit", StatusDone, ""⟩]
    2 7 rfl (by omega) (by decide)
    (fun i hi => by
      have h : i = 0 := Nat.lt_one_iff.mp hi
      subst h; rfl) rfl (by decide)
  simpa using this

/-! ### C5 — chain-index coherence -/

/-- All status-index entries are within chain bounds. -/
def idxBounded (r : Router) : Prop :=
  ∀ p ∈ r.statusChainIndex, p.2 < r.chain.length

/-- The corrected no-backward-arrival condition: every chain position whose
`next_status` equals a registered trigger status lies strictly before that
trigger's mapped index (completing a phase never lands on a status that
resumes at or before that phase). -/
def chainIndexCoherent (r : Router) : Prop :=
  ∀ p ∈ r.chain.enum, ∀ q ∈ r.statusChainIndex,
    (p.2 : chainStep).NextStatus = q.1 → p.1 < q.2

/-- The standard BMAD v6 workflow manifest documented in
`internal/manifest/manifest.go`. -/
def standardManifestEntries : List WorkflowEntry := [
  ⟨"3", "create-story", "SM", "/create-story", "backlog", "ready-for-dev"⟩,
  ⟨"3", "dev-story", "Dev", "/dev-story", "ready-for-dev", "review"⟩,
  ⟨"3", "dev-story", "Dev", "/dev-story", "in-progress", "review"⟩,
  ⟨"3", "code-review", "QA", "/code-review", "review", "done"⟩,
  ⟨"3", "git-commit", "", "/git-commit", "", "done"⟩]

/-- Membership in a Go-map assignment: an entry is either an old one or the
newly assigned binding. -/
theorem mem_mapAssign {β : Type} {m : List (Status × β)} {k : Status} {v : β}
    {q : Status × β} (hq : q ∈ mapAssign m k v) : q ∈ m ∨ q = (k, v) := by
  unfold mapAssign at hq
  split at hq
  · obtain ⟨p, hp, hpq⟩ := List.mem_map.mp hq
    by_cases h : (p.1 == k) = true
    · right; rw [if_pos h] at hpq; exact hpq.symm
    · left; rw [if_neg h] at hpq; rw [← hpq]; exact hp
  · rcases List.mem_append.mp hq with h | h
    · left; exact h
    · right; simpa using h

/-- `findIdx?` only returns positions below the start offset plus the
list length. -/
theorem findIdx?_lt_start_add_length {α : Type} (p : α → Bool) :
    ∀ (l : List α) (s i : Nat), List.findIdx? p l s = some i →
      i < s + l.length := by
  intro l
  induction l with
  | nil => intro s i h; simp [List.findIdx?] at h
  | cons a t ih =>
    intro s i h
    simp only [List.findIdx?] at h
    split at h
    · cases h; simp
    · have := ih (s + 1) i h
      simp only [List.length_cons]
      omega

/-- `findIdx?` only returns positions inside the list. -/
theorem findIdx?_lt_length {α : Type} (p : α → Bool) :
    ∀ (l : List α) (i : Nat), l.findIdx? p = some i → i < l.length := by
  intro l i h
  have := findIdx?_lt_start_add_length p l 0 i h
  omega

/-- `mapAssign` preserves a uniform bound when the new value satisfies it. -/
theorem mapAssign_bounded {m : List (Status × Nat)} {k : Status} {v len : Nat}
    (hm : ∀ p ∈ m, p.2 < len) (hv : v < len) :
    ∀ p ∈ mapAssign m k v, p.2 < len := by
  intro p hp
  rcases mem_mapAssign hp with h | h
  · exact hm p h
  · rw [h]; exact hv

/-- Appending to the chain keeps every old index bound valid. -/
theorem idxBounded_addEntry (r : Router) (e : WorkflowEntry)
    (h : idxBounded r) : idxBounded (routerAddEntry r e) := by
  unfold routerAddEntry
  split
  · split
    · split
      case _ i hfind =>
        intro p hp
        exact mapAssign_bounded h (findIdx?_lt_length _ _ _ hfind) p hp
      case _ => exact h
    · exact h
  · split
    · intro p hp
      simp only [List.length_append, List.length_singleton]
      refine mapAssign_bounded (fun q hq => ?_) (by simp) p hp
      have := h q hq
      omega
    · intro p hp
      have := h p hp
      simp only [List.length_append, List.length_singleton]
      omega

/-- Every router built by folding manifest entries over a bounded router is
bounded. -/
theorem idxBounded_foldl (entries : List WorkflowEntry) :
    ∀ (r : Router), idxBounded r → idxBounded (entries.foldl routerAddEntry r) := by
  induction entries with
  | nil => intro r h; exact h
  | cons e rest ih =>
    intro r h
    exact ih (routerAddEntry r e) (idxBounded_addEntry r e h)

/-- C5 counterexample: on the default router, the trigger status
`ready-for-dev` maps to chain index 1, yet the prefix of the chain before
index 1 (namely `create-story`) has `next_status = ready-for-dev` — the
claimed "prefix contains no phase whose next_status equals the trigger"
is false as stated. -/
theorem C5_chain_index_counterexample :
    NewRouter.statusChainIndex.lookup StatusReadyForDev = some 1 ∧
    ((NewRouter.chain.take 1).any fun cs =>
      cs.NextStatus == StatusReadyForDev) = true := by
  constructor <;> rfl

/-- C5 (amended): status-index entries are within chain bounds for the
default router and for every manifest-derived router; `InsertStepAfter`
preserves the bounds and shifts every entry ≥ the insertion index up by
one; and — in the corrected direction — for the default router and the
router derived from the documented standard manifest, every chain position
whose `next_status` equals a trigger status lies strictly before that
trigger's mapped index.  The standard manifest yields exactly the default
router. -/
theorem C5_chain_index_amended :
    idxBounded NewRouter ∧
    (∀ entries : List WorkflowEntry, idxBounded (NewRouterFromManifest entries)) ∧
    (∀ (r : Router) (a w : String) (ns : Status),
      idxBounded r → idxBounded (r.InsertStepAfter a w ns)) ∧
    (∀ (r : Router) (a w : String) (ns : Status) (i : Nat),
      (r.chain.any fun st => st.Workflow == w) = false →
      r.chain.findIdx? (fun st => st.Workflow == a) = some i →
      (r.InsertStepAfter a w ns).statusChainIndex =
        r.statusChainIndex.map (fun p => if i + 1 ≤ p.2 then (p.1, p.2 + 1) else p)) ∧
    chainIndexCoherent NewRouter ∧
    chainIndexCoherent (NewRouterFromManifest standardManifestEntries) ∧
    NewRouterFromManifest standardManifestEntries = NewRouter := by
  refine ⟨by unfold idxBounded; decide, ?_, ?_, ?_,
    by unfold chainIndexCoherent; decide,
    by unfold chainIndexCoherent; decide, by decide⟩
  · intro entries
    exact idxBounded_foldl entries _ (by intro p hp; simp at hp)
  · intro r a w ns h
    unfold Router.InsertStepAfter
    split
    · exact h
    · split
      case _ => exact h
      case _ i hfind =>
        intro p hp
        obtain ⟨q, hq, hpq⟩ := List.mem_map.mp hp
        have hqb := h q hq
        have hi := findIdx?_lt_length _ _ _ hfind
        have hlen : (r.chain.take (i + 1) ++ [(⟨w, ns⟩ : chainStep)] ++
            r.chain.drop (i + 1)).length = r.chain.length + 1 := by
          simp only [List.length_append, List.length_take, List.length_drop,
            List.length_singleton]
          omega
        rw [hlen]
        rw [← hpq]
        split <;> simp <;> omega
  · intro r a w ns i hany hfind
    unfold Router.InsertStepAfter
    rw [if_neg (by simp [hany]), hfind]

/-- Witness for C5 (amended): the bounds invariant evaluated on the router
derived from the standard manifest, and on a concrete `InsertStepAfter`
mutation of the default router. -/
theorem C5_chain_index_amended_witness :
    idxBounded (NewRouterFromManifest standardManifestEntries) ∧
    idxBounded (NewRouter.InsertStepAfter "code-review" "test-automation" "done") ∧
    (NewRouter.InsertStepAfter "code-review" "test-automation" "done").statusChainIndex =
      NewRouter.statusChainIndex.map
        (fun p => if 2 + 1 ≤ p.2 then (p.1, p.2 + 1) else p) := by
  refine ⟨C5_chain_index_amended.2.1 standardManifestEntries,
    C5_chain_index_amended.2.2.1 NewRouter "code-review" "test-automation" "done"
      (by unfold idxBounded; decide),
    C5_chain_index_amended.2.2.2.1 NewRouter "code-review" "test-automation" "done" 2
      (by decide) (by decide)⟩

/-! ## Claude streaming events (`internal/claude/types.go`)

Go struct pointers that may be nil become `Option`; `omitempty` string
fields default to `""`. -/

/-- `ToolInput` — input parameters of a tool invocation. -/
structure ToolInput where
  Command : String := ""
  Description : String := ""
  FilePath : String := ""
  Content : String := ""
deriving DecidableEq, Repr

/-- `ToolResult` — result of a tool execution. -/
structure ToolResult where
  Stdout : String := ""
  Stderr : String := ""
  Interrupted : Bool := false
deriving DecidableEq, Repr

/-- `ContentBlock` — one block of content within a message. -/
structure ContentBlock where
  type : String := ""
  Text : String := ""
  Name : String := ""
  Input : Option ToolInput := none
deriving DecidableEq, Repr

/-- `MessageContent` — the content of a message. -/
structure MessageContent where
  Content : List ContentBlock := []
deriving DecidableEq, Repr

/-- `StreamEvent` — a raw JSON event from the stream-json output. -/
structure StreamEvent where
  type : String := ""
  Subtype : String := ""
  Message : Option MessageContent := none
  ToolUseResult : Option ToolResult := none
deriving DecidableEq, Repr

/-- `Event` — the parsed event with extracted convenience fields. -/
structure Event where
  Raw : StreamEvent := {}
  type : String := ""
  Subtype : String := ""
  Text : String := ""
  ToolName : String := ""
  ToolDescription : String := ""
  ToolCommand : String := ""
  ToolFilePath : String := ""
  ToolStdout : String := ""
  ToolStderr : String := ""
  ToolInterrupted : Bool := false
  SessionStarted : Bool := false
  SessionComplete : Bool := false
deriving DecidableEq, Repr

/-- The known event-type discriminators (`EventTypeSystem` …). -/
def knownEventTypes : List String := ["system", "assistant", "user", "result"]

/-- `SubtypeInit` — subtype of system initialisation events. -/
def SubtypeInit : String := "init"

/-- The per-block update of the assistant case of `NewEventFromStream`:
a `text` block sets `Text`, a `tool_use` block sets the tool fields
(later blocks overwrite earlier ones, as in the Go range loop). -/
def applyContentBlock (e : Event) (block : ContentBlock) : Event :=
  if block.type = "text" then { e with Text := block.Text }
  else if block.type = "tool_use" then
    let e := { e with ToolName := block.Name }
    match block.Input with
    | some input =>
        { e with
          ToolDescription := input.Description,
          ToolCommand := input.Command,
          ToolFilePath := input.FilePath }
    | none => e
  else e

/-- `NewEventFromStream` — create an `Event` from a raw `StreamEvent`,
extracting fields by the type switch. -/
def NewEventFromStream (raw : StreamEvent) : Event :=
  let e : Event := { Raw := raw, type := raw.type, Subtype := raw.Subtype }
  if raw.type = "system" then
    if raw.Subtype = SubtypeInit then { e with SessionStarted := true } else e
  else if raw.type = "assistant" then
    match raw.Message with
    | some msg => msg.Content.foldl applyContentBlock e
    | none => e
  else if raw.type = "user" then
    match raw.ToolUseResult with
    | some res =>
        { e with
          ToolStdout := res.Stdout,
          ToolStderr := res.Stderr,
          ToolInterrupted := res.Interrupted }
    | none => e
  else if raw.type = "result" then { e with SessionComplete := true }
  else e

/-- `Event.IsText` — assistant event with non-empty text. -/
def Event.IsText (e : Event) : Bool :=
  e.type == "assistant" && e.Text != ""

/-- `Event.IsToolUse` — assistant event with a tool name. -/
def Event.IsToolUse (e : Event) : Bool :=
  e.type == "assistant" && e.ToolName != ""

/-! ## Streaming parser (`internal/claude`, `DefaultParser.Parse`)

The channel-producing goroutine becomes a function from the scanned lines
to the finite list of delivered events.  `bufio.Scanner` (Go standard
library) is modelled by its documented contract in this repo: lines up to
`BufferSize` bytes are scanned; a longer line causes a scanner error,
which silently ends the loop (the code deliberately ignores
`scanner.Err()`), dropping that line and everything after it.
`json.Unmarshal` (Go standard library) is an explicit parameter mapping a
line to `some` decoded `StreamEvent` or `none` on a decode error. -/

/-- The effective buffer size: `BufferSize` when positive, else the 10 MiB
default. -/
def effectiveBufSize (bufferSize : Int) : Nat :=
  if bufferSize ≤ 0 then 10 * 1024 * 1024 else bufferSize.toNat

/-- `DefaultParser.Parse` as a function: scan lines until the first
over-long line, skip empty lines, skip lines the decoder rejects, and emit
`NewEventFromStream` of each decoded line in order.  The result type has
no error channel — the consumer only ever sees the events followed by
end-of-sequence. -/
def DefaultParser.Parse (unmarshal : String → Option StreamEvent)
    (bufferSize : Int) (lines : List String) : List Event :=
  ((lines.takeWhile fun l => l.length ≤ effectiveBufSize bufferSize).filterMap
    fun line =>
      if line = "" then none
      else (unmarshal line).map NewEventFromStream)

/-! ## bmad-help fallback resolver (`internal/bmadhelp/bmadhelp.go`) -/

/-- `knownWorkflows` — the workflow names extractable from a /bmad-help
response, in chain order; earlier entries are preferred. -/
def knownWorkflows : List String :=
  ["create-story", "dev-story", "code-review", "test-automation", "git-commit"]

/-- `workflowNextStatus` — the fixed workflow → next-status map. -/
def workflowNextStatus : List (String × Status) :=
  [("create-story", StatusReadyForDev),
   ("dev-story", StatusReview),
   ("code-review", StatusDone),
   ("test-automation", StatusDone),
   ("git-commit", StatusDone)]

/-- `Recommendation` — the resolved workflow and expected next status. -/
structure Recommendation where
  Workflow : String
  NextStatus : Status
deriving DecidableEq, Repr

/-- Go `strings.ToLower`, for the ASCII range that the workflow names and
responses use (`Char.toLower` lowers exactly the ASCII uppercase letters). -/
def goToLower (s : String) : String :=
  ⟨s.data.map Char.toLower⟩

/-- Go `strings.Contains` on character lists: the needle occurs as a
contiguous substring. -/
def listContainsSub (needle : List Char) : List Char → Bool
  | [] => needle.isPrefixOf []
  | a :: t => needle.isPrefixOf (a :: t) || listContainsSub needle t

/-- Go `strings.Contains`. -/
def stringsContains (hay needle : String) : Bool :=
  listContainsSub needle.data hay.data

/-- The scan loop of `ParseResponse` over the ordered workflow list:
return the first known workflow contained in the lowered response, paired
with its mapped next status (defaulting to `done`, as the Go `ok` check
does). -/
def parseResponseScan (lower : String) : List String → Option Recommendation
  | [] => none
  | w :: rest =>
    if stringsContains lower w then
      some ⟨w, (workflowNextStatus.lookup w).getD StatusDone⟩
    else parseResponseScan lower rest

/-- `ParseResponse` — extract a workflow recommendation from a /bmad-help
response: lower-case the response, then scan `knownWorkflows` in order. -/
def ParseResponse (response : String) : Option Recommendation :=
  parseResponseScan (goToLower response) knownWorkflows

/-- The distinct error outcomes of `ClaudeFallback.ResolveWorkflow`. -/
inductive BmadHelpError (ε : Type) where
  | executionFailed (e : ε)
  | nonZeroExit (code : Int)
  | unrecognizedRecommendation
deriving DecidableEq, Repr

/-- The handler of `ResolveWorkflow`: accumulate the `Text` of every
`IsText` event, in delivery order. -/
def accumText (events : List Event) : String :=
  events.foldl (fun acc e => if e.IsText then acc ++ e.Text else acc) ""

/-- `ClaudeFallback.ResolveWorkflow` — the executor session is modelled by
the list of delivered events and its outcome (an error, or the exit code):
an execution error and a non-zero exit code surface as distinct errors
without parsing; on exit 0 the accumulated text is parsed. -/
def ResolveWorkflow {ε : Type} (events : List Event) (res : Except ε Int) :
    Except (BmadHelpError ε) (String × Status) :=
  match res with
  | .error e => .error (.executionFailed e)
  | .ok exitCode =>
    if exitCode ≠ 0 then .error (.nonZeroExit exitCode)
    else
      match ParseResponse (accumText events) with
      | some rec => .ok (rec.Workflow, rec.NextStatus)
      | none => .error .unrecognizedRecommendation

/-- The scan loop returns exactly the first element of the list (in list
order) contained in the lowered text. -/
theorem parseResponseScan_eq_find (lower : String) :
    ∀ l : List String, parseResponseScan lower l =
      (l.find? (fun w => stringsContains lower w)).map
        (fun w => ⟨w, (workflowNextStatus.lookup w).getD StatusDone⟩) := by
  intro l
  induction l with
  | nil => rfl
  | cons w rest ih =>
    simp only [parseResponseScan, List.find?]
    by_cases h : stringsContains lower w = true
    · rw [if_pos h, h]; rfl
    · rw [if_neg h, eq_false_of_ne_true h, ih]

/-- C6: `ParseResponse` returns the first workflow of the ordered
`knownWorkflows` list (chain order, not response order) that occurs in the
case-lowered response, together with that workflow's fixed next status;
it returns none exactly when no known name occurs; a non-zero exit code
and an execution error surface as distinct errors without parsing, and an
exit code of 0 resolves via `ParseResponse` with the
unrecognised-recommendation error when it finds nothing. -/
theorem C6_fallback_resolution {ε : Type} :
    (∀ response : String,
      ParseResponse response =
        (knownWorkflows.find? (fun w => stringsContains (goToLower response) w)).map
          (fun w => ⟨w, (workflowNextStatus.lookup w).getD StatusDone⟩)) ∧
    (∀ response : String,
      (∀ w ∈ knownWorkflows, stringsContains (goToLower response) w = false) →
      ParseResponse response = none) ∧
    (∀ (events : List Event) (c : Int), c ≠ 0 →
      ResolveWorkflow (ε := ε) events (.ok c) = .error (.nonZeroExit c)) ∧
    (∀ (events : List Event) (e : ε),
      ResolveWorkflow events (.error e) = .error (.executionFailed e)) ∧
    (∀ events : List Event,
      ResolveWorkflow (ε := ε) events (.ok 0) =
        match ParseResponse (accumText events) with
        | some rec => .ok (rec.Workflow, rec.NextStatus)
        | none => .error .unrecognizedRecommendation) := by
  refine ⟨?_, ?_, ?_, fun _ _ => rfl, ?_⟩
  · intro response
    exact parseResponseScan_eq_find (goToLower response) knownWorkflows
  · intro response h
    rw [ParseResponse, parseResponseScan_eq_find]
    rw [List.find?_eq_none.mpr (fun w hw => by simp [h w hw])]
    rfl
  · intro events c hc
    simp only [ResolveWorkflow]
    rw [if_pos hc]
  · intro events
    simp only [ResolveWorkflow]
    rw [if_neg (by simp)]

/-- Witness for C6: a response mentioning `git-commit` before `dev-story`
resolves to `dev-story` (chain order wins over response order), and exit
code 2 yields the non-zero-exit error. -/
theorem C6_fallback_resolution_witness :
    ParseResponse "Maybe /git-commit? No: run Dev-Story next." =
      some ⟨"dev-story", StatusReview⟩ ∧
    ResolveWorkflow (ε := String) [] (.ok 2) = .error (.nonZeroExit 2) := by
  constructor
  · rw [(C6_fallback_resolution (ε := String)).1
      "Maybe /git-commit? No: run Dev-Story next."]
    decide
  · exact (C6_fallback_resolution (ε := String)).2.2.1 [] 2 (by decide)

/-! ### C7 / C10 — parser behaviour -/

/-- `takeWhile` passes over a prefix whose elements all satisfy the
predicate. -/
theorem takeWhile_append_of_all {α : Type} (p : α → Bool) :
    ∀ (pre : List α), (∀ a ∈ pre, p a = true) →
      ∀ suf, (pre ++ suf).takeWhile p = pre ++ suf.takeWhile p := by
  intro pre
  induction pre with
  | nil => intro _ suf; rfl
  | cons a t ih =>
    intro hall suf
    have hpa : p a = true := hall a (by simp)
    simp only [List.cons_append, List.takeWhile_cons, hpa, if_true]
    rw [ih (fun b hb => hall b (by simp [hb])) suf]

/-- `takeWhile` keeps the whole list when every element satisfies the
predicate. -/
theorem takeWhile_eq_self_of_all {α : Type} (p : α → Bool) :
    ∀ l : List α, (∀ a ∈ l, p a = true) → l.takeWhile p = l := by
  intro l h
  have := takeWhile_append_of_all p l h []
  simpa using this

/-- `takeWhile` stops exactly at the first failing element. -/
theorem takeWhile_eq_take_of_fail {α : Type} (p : α → Bool) :
    ∀ (l : List α) (k : Nat) (hk : k < l.length),
      (∀ a ∈ l.take k, p a = true) → p (l.get ⟨k, hk⟩) = false →
      l.takeWhile p = l.take k := by
  intro l
  induction l with
  | nil => intro k hk; simp at hk
  | cons a t ih =>
    intro k hk hall hfail
    match k with
    | 0 =>
      simp only [List.get] at hfail
      simp [List.takeWhile_cons, hfail]
    | kk + 1 =>
      have hpa : p a = true := hall a (by simp)
      simp only [List.takeWhile_cons, hpa, if_true, List.take_succ_cons]
      rw [ih kk (by simpa using hk)
        (fun b hb => hall b (by simp [hb])) (by simpa using hfail)]

/-- A line that decodes with an unrecognised type discriminator, modelling
`json.Unmarshal` on the single line `{"type":"weird"}` (all other JSON
fields absent). -/
def weirdLine : String := "\x7b\"type\":\"weird\"\x7d"

/-- The decoder behaviour of `json.Unmarshal` at `weirdLine`. -/
def weirdUnmarshal : String → Option StreamEvent :=
  fun l => if l = weirdLine then some { type := "weird" } else none

/-- C7 counterexample: a JSON-parseable line whose `type` discriminator is
not a known event kind produces one event (with the unknown type and no
payload), not zero events as claimed. -/
theorem C7_unknown_type_counterexample :
    DefaultParser.Parse weirdUnmarshal (10 * 1024 * 1024) [weirdLine] =
      [{ Raw := { type := "weird" }, type := "weird" }] ∧
    "weird" ∉ knownEventTypes ∧
    (DefaultParser.Parse weirdUnmarshal (10 * 1024 * 1024) [weirdLine]).length ≠ 0 := by
  refine ⟨rfl, by decide, by decide⟩

/-- C7 (amended): for every JSON-parseable non-empty input line whose type
discriminator is not a known event kind, the parser produces exactly one
event — whose `type` is the unknown discriminator and whose payload and
session flags are unset — produces no error, and continues processing
subsequent lines unchanged. -/
theorem C7_unknown_type_amended
    (unmarshal : String → Option StreamEvent) (bufferSize : Int)
    (pre suf : List String) (line : String) (se : StreamEvent)
    (hpre : ∀ l ∈ pre, l.length ≤ effectiveBufSize bufferSize)
    (hline : line.length ≤ effectiveBufSize bufferSize)
    (hne : line ≠ "") (hdec : unmarshal line = some se)
    (hunk : se.type ∉ knownEventTypes) :
    DefaultParser.Parse unmarshal bufferSize (pre ++ line :: suf) =
      DefaultParser.Parse unmarshal bufferSize pre ++
        NewEventFromStream se :: DefaultParser.Parse unmarshal bufferSize suf ∧
    (NewEventFromStream se).type = se.type ∧
    (NewEventFromStream se).SessionStarted = false ∧
    (NewEventFromStream se).SessionComplete = false ∧
    (NewEventFromStream se).Text = "" ∧
    (NewEventFromStream se).ToolName = "" := by
  have h1 : se.type ≠ "system" := fun h => hunk (by simp [h, knownEventTypes])
  have h2 : se.type ≠ "assistant" := fun h => hunk (by simp [h, knownEventTypes])
  have h3 : se.type ≠ "user" := fun h => hunk (by simp [h, knownEventTypes])
  have h4 : se.type ≠ "result" := fun h => hunk (by simp [h, knownEventTypes])
  have hev : NewEventFromStream se =
      { Raw := se, type := se.type, Subtype := se.Subtype } := by
    simp only [NewEventFromStream]
    rw [if_neg h1, if_neg h2, if_neg h3, if_neg h4]
  refine ⟨?_, by rw [hev], by rw [hev], by rw [hev], by rw [hev], by rw [hev]⟩
  unfold DefaultParser.Parse
  rw [takeWhile_append_of_all _ pre (fun a ha => by simpa using hpre a ha),
    List.takeWhile_cons, if_pos (by simpa using hline),
    takeWhile_eq_self_of_all _ pre (fun a ha => by simpa using hpre a ha),
    List.filterMap_append]
  simp only [List.filterMap_cons, if_neg hne, hdec, Option.map_some']

/-- Witness for C7 (amended): the single `weirdLine` between no other
lines, under the 10 MiB default buffer. -/
theorem C7_unknown_type_amended_witness :
    DefaultParser.Parse weirdUnmarshal (10 * 1024 * 1024) ([] ++ weirdLine :: []) =
      DefaultParser.Parse weirdUnmarshal (10 * 1024 * 1024) [] ++
        NewEventFromStream { type := "weird" } ::
          DefaultParser.Parse weirdUnmarshal (10 * 1024 * 1024) [] ∧
    (NewEventFromStream { type := "weird" }).type = "weird" ∧
    (NewEventFromStream { type := "weird" }).SessionStarted = false ∧
    (NewEventFromStream { type := "weird" }).SessionComplete = false ∧
    (NewEventFromStream { type := "weird" }).Text = "" ∧
    (NewEventFromStream { type := "weird" }).ToolName = "" :=
  C7_unknown_type_amended weirdUnmarshal (10 * 1024 * 1024) [] [] weirdLine
    { type := "weird" } (fun l hl => absurd hl (List.not_mem_nil l))
    (by decide) (by decide) rfl (by decide)

/-- C10: the parsed event sequence is a plain list of events — there is no
error value in the parser's output type, so end-of-input and an
unrecoverable read error are indistinguishable to the consumer — and a
single line exceeding the buffer silently truncates the sequence to the
events of the preceding lines: the over-long line and everything after it
produce nothing. -/
theorem C10_oversized_line_truncates
    (unmarshal : String → Option StreamEvent) (bufferSize : Int)
    (input : List String) (k : Nat) (hk : k < input.length)
    (hpre : ∀ l ∈ input.take k, l.length ≤ effectiveBufSize bufferSize)
    (hbig : (input.get ⟨k, hk⟩).length > effectiveBufSize bufferSize) :
    DefaultParser.Parse unmarshal bufferSize input =
      DefaultParser.Parse unmarshal bufferSize (input.take k) := by
  unfold DefaultParser.Parse
  rw [takeWhile_eq_take_of_fail _ input k hk
      (fun a ha => by simpa using hpre a ha)
      (by simp only [decide_eq_false_iff_not, not_le]; exact hbig),
    takeWhile_eq_self_of_all _ (input.take k)
      (fun a ha => by simpa using hpre a ha)]

/-- Witness for C10: a 25-byte second line under a 20-byte buffer truncates
the stream to the first line's event. -/
theorem C10_oversized_line_truncates_witness :
    DefaultParser.Parse weirdUnmarshal 20 [weirdLine, "this-line-is-way-too-long"] =
      DefaultParser.Parse weirdUnmarshal 20
        ([weirdLine, "this-line-is-way-too-long"].take 1) :=
  C10_oversized_line_truncates weirdUnmarshal 20
    [weirdLine, "this-line-is-way-too-long"] 1
    (by decide) (fun l hl => by fin_cases hl <;> decide) (by decide)

/-! ## Status store writer (`internal/status/writer.go`)

The file system becomes an association list from path to file contents of
an abstract content type `γ` (bytes).  `os.WriteFile`, `os.Rename` and
`os.Remove` become pure operations on it, with Boolean fault-injection
parameters for the write and rename steps, matching the test's simulated
rename failure.  The YAML codec is an external collaborator (spec §6) and
becomes a `marshal`/`unmarshal` parameter pair. -/

/-- A file system: paths mapped to contents. -/
abbrev FS (γ : Type) := List (String × γ)

/-- `os.ReadFile` — `none` models a read error (file absent). -/
def FS.read {γ : Type} (fs : FS γ) (p : String) : Option γ :=
  fs.lookup p

/-- `os.WriteFile` — create or replace the file. -/
def FS.write {γ : Type} (fs : FS γ) (p : String) (data : γ) : FS γ :=
  mapAssign fs p data

/-- `os.Remove`. -/
def FS.remove {γ : Type} (fs : FS γ) (p : String) : FS γ :=
  fs.filter (fun q => q.1 != p)

/-- `os.Rename` — move the contents of `src` over `dst`. -/
def FS.rename {γ : Type} (fs : FS γ) (src dst : String) : FS γ :=
  match fs.read src with
  | none => fs
  | some data => (fs.remove src).write dst data

/-- Modelled from the spec: the sprint document parses to a
`development_status` section mapping story identifiers to status strings,
plus the other top-level fields (including ones unknown to the core),
which the external serialiser preserves (spec §3 and §6; the Go
`SprintStatus` struct declaration is not part of this snapshot). -/
structure SprintStatus (χ : Type) where
  DevelopmentStatus : List (String × String)
  extra : χ
deriving DecidableEq, Repr

/-- `DefaultStatusPath` (= `V6StatusPath`). -/
def DefaultStatusPath : String :=
  "_bmad-output/implementation-artifacts/sprint-status.yaml"

/-- `filepath.Join` for already-clean components. -/
def filepathJoin (a b : String) : String := a ++ "/" ++ b

/-- The distinct failure outcomes of `Writer.UpdateStatus`, one per early
return of the Go function. -/
inductive UpdateErr where
  | invalidStatus
  | readFailed
  | parseFailed
  | storyNotFound
  | writeFailed
  | renameFailed
deriving DecidableEq, Repr

/-- `Writer.UpdateStatus` — validate the new status, read and parse the
sprint document, fail when the story is absent, replace the story's value,
marshal, write a sibling temp file, and rename it over the target; on
rename failure remove the temp file and surface the error.
`writeFails`/`renameFails` inject faults into the two effectful steps;
a failed write leaves `partialData` at the temp path. -/
def Writer.UpdateStatus {χ γ : Type} (marshal : SprintStatus χ → γ)
    (unmarshal : γ → Option (SprintStatus χ))
    (writeFails renameFails : Bool) (partialData : γ)
    (fs : FS γ) (basePath storyKey : String) (newStatus : Status) :
    FS γ × Option UpdateErr :=
  if ¬ newStatus.IsValid then (fs, some .invalidStatus)
  else
    let fullPath := filepathJoin basePath DefaultStatusPath
    match fs.read fullPath with
    | none => (fs, some .readFailed)
    | some data =>
      match unmarshal data with
      | none => (fs, some .parseFailed)
      | some status =>
        if ¬ (status.DevelopmentStatus.any fun p => p.1 == storyKey) then
          (fs, some .storyNotFound)
        else
          let updated :=
            { status with
              DevelopmentStatus := status.DevelopmentStatus.map
                (fun p => if p.1 == storyKey then (p.1, newStatus) else p) }
          let updatedData := marshal updated
          let tmpPath := fullPath ++ ".tmp"
          if writeFails then (fs.write tmpPath partialData, some .writeFailed)
          else
            let fs1 := fs.write tmpPath updatedData
            if renameFails then (fs1.remove tmpPath, some .renameFailed)
            else (fs1.rename tmpPath fullPath, none)

/-! ### C3 / C9 — atomicity and frame of the status update -/

/-- Replacing the binding of key `k` does not affect lookups of other keys. -/
theorem lookup_set_ne {β : Type} (k : Status) (v : β) (q : Status)
    (h : q ≠ k) :
    ∀ m : List (Status × β),
      (m.map fun p => if p.1 == k then (k, v) else p).lookup q = m.lookup q := by
  intro m
  induction m with
  | nil => rfl
  | cons a t ih =>
    simp only [List.map_cons]
    split
    case isTrue hak =>
      have hp : a.1 = k := by simpa using hak
      have hqa : (q == a.1) = false := by simp [hp]; simpa using h
      have hqk : (q == k) = false := by simpa using h
      simp only [List.lookup, hqk, hqa]
      exact ih
    case isFalse hak =>
      simp only [List.lookup]
      cases hqa : (q == a.1) with
      | true => rfl
      | false => exact ih

/-- Appending a binding for key `k` does not affect lookups of other keys. -/
theorem lookup_append_single_ne {β : Type} (k : Status) (v : β) (q : Status)
    (h : q ≠ k) :
    ∀ m : List (Status × β), (m ++ [(k, v)]).lookup q = m.lookup q := by
  intro m
  induction m with
  | nil =>
    have hqk : (q == k) = false := by simpa using h
    simp [List.lookup, hqk]
  | cons a t ih =>
    simp only [List.cons_append, List.lookup]
    cases hqa : (q == a.1) with
    | true => rfl
    | false => exact ih

/-- Lookup of a different key is unaffected by a Go-map assignment. -/
theorem lookup_mapAssign_ne {β : Type} (k : Status) (v : β) (q : Status)
    (h : q ≠ k) (m : List (Status × β)) :
    (mapAssign m k v).lookup q = m.lookup q := by
  unfold mapAssign
  split
  · exact lookup_set_ne k v q h m
  · exact lookup_append_single_ne k v q h m

/-- Replacing the binding of a present key `k` makes its lookup the new
value. -/
theorem lookup_set_self {β : Type} (k : Status) (v : β) :
    ∀ m : List (Status × β), (m.any fun p => p.1 == k) = true →
      (m.map fun p => if p.1 == k then (k, v) else p).lookup k = some v := by
  intro m
  induction m with
  | nil => intro hany; simp at hany
  | cons a t ih =>
    intro hany
    simp only [List.map_cons]
    split
    case isTrue hak =>
      simp [List.lookup]
    case isFalse hak =>
      simp only [List.lookup]
      have hka : (k == a.1) = false := by
        have : ¬ a.1 = k := by simpa using hak
        simp
        exact fun hh => this hh.symm
      rw [hka]
      refine ih ?_
      rcases (List.any_eq_true).mp hany with ⟨p, hp, hpk⟩
      rcases List.mem_cons.mp hp with hpa | hpt
      · exact absurd (hpa ▸ hpk) (by simpa using hak)
      · exact List.any_eq_true.mpr ⟨p, hpt, hpk⟩

/-- Lookup of the assigned key after a Go-map assignment yields the
assigned value. -/
theorem lookup_mapAssign_self {β : Type} (k : Status) (v : β) :
    ∀ m : List (Status × β), (mapAssign m k v).lookup k = some v := by
  intro m
  unfold mapAssign
  split
  case isTrue hany => exact lookup_set_self k v m hany
  case isFalse hany =>
    induction m with
    | nil => simp [List.lookup]
    | cons a t ih =>
      simp only [List.cons_append, List.lookup]
      have hka : (k == a.1) = false := by
        have : ¬ (a.1 == k) = true := fun hh =>
          hany (by simp only [List.any_cons, hh, Bool.true_or])
        have h2 : ¬ a.1 = k := by simpa using this
        simp
        exact fun hh => h2 hh.symm
      rw [hka]
      refine ih ?_
      intro hh
      exact hany (by simp only [List.any_cons, hh, Bool.or_true])

/-- Replacing the value stored under a present key `k`, keeping the key
object (`status.DevelopmentStatus[storyKey] = newStatus`): lookup of `k`
yields the new value. -/
theorem lookup_setValue_self {β : Type} (k : Status) (v : β) :
    ∀ m : List (Status × β), (m.any fun p => p.1 == k) = true →
      (m.map fun p => if p.1 == k then (p.1, v) else p).lookup k = some v := by
  intro m
  induction m with
  | nil => intro hany; simp at hany
  | cons a t ih =>
    intro hany
    simp only [List.map_cons]
    split
    case isTrue hak =>
      have hp : a.1 = k := by simpa using hak
      simp [List.lookup, hp]
    case isFalse hak =>
      simp only [List.lookup]
      have hka : (k == a.1) = false := by
        have : ¬ a.1 = k := by simpa using hak
        simp
        exact fun hh => this hh.symm
      rw [hka]
      refine ih ?_
      rcases (List.any_eq_true).mp hany with ⟨p, hp, hpk⟩
      rcases List.mem_cons.mp hp with hpa | hpt
      · exact absurd (hpa ▸ hpk) (by simpa using hak)
      · exact List.any_eq_true.mpr ⟨p, hpt, hpk⟩

/-- Replacing the value stored under key `k` does not affect lookups of
other keys. -/
theorem lookup_setValue_ne {β : Type} (k : Status) (v : β) (q : Status)
    (h : q ≠ k) :
    ∀ m : List (Status × β),
      (m.map fun p => if p.1 == k then (p.1, v) else p).lookup q = m.lookup q := by
  intro m
  induction m with
  | nil => rfl
  | cons a t ih =>
    simp only [List.map_cons]
    split
    case isTrue hak =>
      have hp : a.1 = k := by simpa using hak
      have hqa : (q == a.1) = false := by simp [hp]; simpa using h
      simp only [List.lookup, hqa]
      exact ih
    case isFalse hak =>
      simp only [List.lookup]
      cases hqa : (q == a.1) with
      | true => rfl
      | false => exact ih

/-- Lookup of a different path is unaffected by `FS.remove`. -/
theorem read_remove_ne {γ : Type} (p q : String) (h : q ≠ p)
    (fs : FS γ) : (fs.remove p).read q = fs.read q := by
  unfold FS.remove FS.read
  induction fs with
  | nil => rfl
  | cons a t ih =>
    simp only [List.filter]
    cases hap : (a.1 != p) with
    | true =>
      simp only [List.lookup]
      cases hqa : (q == a.1) with
      | true => rfl
      | false => exact ih
    | false =>
      have hap2 : a.1 = p := by simpa using hap
      have hqa : (q == a.1) = false := by simp [hap2]; simpa using h
      simp only [List.lookup, hqa]
      exact ih

/-- The removed path is absent after `FS.remove`. -/
theorem read_remove_self {γ : Type} (p : String) (fs : FS γ) :
    (fs.remove p).read p = none := by
  unfold FS.remove FS.read
  induction fs with
  | nil => rfl
  | cons a t ih =>
    simp only [List.filter]
    cases hap : (a.1 != p) with
    | true =>
      have : ¬ a.1 = p := by simpa using hap
      have hpa : (p == a.1) = false := by
        simp
        exact fun hh => this hh.symm
      simp only [List.lookup, hpa]
      exact ih
    | false => exact ih

/-- Writing a different path does not affect a read. -/
theorem read_write_ne {γ : Type} (p q : String) (d : γ) (h : q ≠ p)
    (fs : FS γ) : (fs.write p d).read q = fs.read q :=
  lookup_mapAssign_ne p d q h fs

/-- Reading back the just-written path yields the written data. -/
theorem read_write_self {γ : Type} (p : String) (d : γ) (fs : FS γ) :
    (fs.write p d).read p = some d :=
  lookup_mapAssign_self p d fs

/-- A sibling `.tmp` path never equals its base path. -/
theorem tmp_ne_base (s : String) : s ++ ".tmp" ≠ s := by
  intro h
  have hlen := congrArg String.length h
  rw [String.length_append] at hlen
  have h4 : ".tmp".length = 4 := rfl
  omega

/-- The updated document: only the targeted story's value is replaced. -/
def updatedDoc {χ : Type} (st : SprintStatus χ) (storyKey : String)
    (newStatus : Status) : SprintStatus χ :=
  { st with
    DevelopmentStatus := st.DevelopmentStatus.map
      (fun p => if p.1 == storyKey then (p.1, newStatus) else p) }

/-- C3: whenever `Writer.UpdateStatus` fails — invalid status, read
failure, parse failure, story absent, temp-file write failure, or rename
failure — the original sprint document is byte-identical to its pre-update
contents, and in the rename-failure case the temp file is additionally
removed (and the error surfaced, as the returned error value). -/
theorem C3_failed_update_preserves_document {χ γ : Type}
    (marshal : SprintStatus χ → γ) (unmarshal : γ → Option (SprintStatus χ))
    (writeFails renameFails : Bool) (partialData : γ)
    (fs : FS γ) (basePath storyKey : String) (newStatus : Status)
    (fs' : FS γ) (err : UpdateErr)
    (h : Writer.UpdateStatus marshal unmarshal writeFails renameFails
      partialData fs basePath storyKey newStatus = (fs', some err)) :
    fs'.read (filepathJoin basePath DefaultStatusPath) =
      fs.read (filepathJoin basePath DefaultStatusPath) ∧
    (err = .renameFailed →
      fs'.read (filepathJoin basePath DefaultStatusPath ++ ".tmp") = none) := by
  simp only [Writer.UpdateStatus] at h
  split at h
  · -- invalid status
    rw [Prod.mk.injEq] at h
    obtain ⟨h1, h2⟩ := h
    injection h2 with h2
    subst h1; subst h2
    exact ⟨rfl, fun he => by cases he⟩
  · split at h
    · -- read failed
      rw [Prod.mk.injEq] at h
      obtain ⟨h1, h2⟩ := h
      injection h2 with h2
      subst h1; subst h2
      exact ⟨rfl, fun he => by cases he⟩
    · split at h
      · -- parse failed
        rw [Prod.mk.injEq] at h
        obtain ⟨h1, h2⟩ := h
        injection h2 with h2
        subst h1; subst h2
        exact ⟨rfl, fun he => by cases he⟩
      · split at h
        · -- story not found
          rw [Prod.mk.injEq] at h
          obtain ⟨h1, h2⟩ := h
          injection h2 with h2
          subst h1; subst h2
          exact ⟨rfl, fun he => by cases he⟩
        · split at h
          · -- write failed
            rw [Prod.mk.injEq] at h
            obtain ⟨h1, h2⟩ := h
            injection h2 with h2
            subst h1; subst h2
            refine ⟨?_, fun he => by cases he⟩
            exact read_write_ne _ _ _ (Ne.symm (tmp_ne_base _)) fs
          · split at h
            · -- rename failed: temp removed, document untouched
              rw [Prod.mk.injEq] at h
              obtain ⟨h1, h2⟩ := h
              injection h2 with h2
              subst h1; subst h2
              constructor
              · rw [read_remove_ne _ _ (Ne.symm (tmp_ne_base _))]
                exact read_write_ne _ _ _ (Ne.symm (tmp_ne_base _)) fs
              · intro _
                exact read_remove_self _ _
            · -- success: contradicts the some-error hypothesis
              rw [Prod.mk.injEq] at h
              exact absurd h.2 (by simp)

/-- Witness for C3: a simulated rename failure over a document at
`base/_bmad-output/implementation-artifacts/sprint-status.yaml` with
contents `"orig"` leaves those contents in place and no temp file. -/
theorem C3_failed_update_preserves_document_witness :
    Writer.UpdateStatus (χ := Unit) (γ := String) (fun _ => "M")
        (fun _ => some ⟨[("s1", "backlog")], ()⟩) false true "P"
        [(filepathJoin "base" DefaultStatusPath, "orig")] "base" "s1" "done" =
      ([(filepathJoin "base" DefaultStatusPath, "orig")], some .renameFailed) ∧
    FS.read (γ := String) [(filepathJoin "base" DefaultStatusPath, "orig")]
        (filepathJoin "base" DefaultStatusPath) = some "orig" ∧
    FS.read (γ := String) [(filepathJoin "base" DefaultStatusPath, "orig")]
        (filepathJoin "base" DefaultStatusPath ++ ".tmp") = none := by
  refine ⟨rfl, ?_, ?_⟩
  · exact (C3_failed_update_preserves_document (χ := Unit) (γ := String)
      (fun _ => "M") (fun _ => some ⟨[("s1", "backlog")], ()⟩) false true "P"
      [(filepathJoin "base" DefaultStatusPath, "orig")] "base" "s1" "done"
      [(filepathJoin "base" DefaultStatusPath, "orig")] .renameFailed rfl).1.trans
      (by rfl)
  · exact (C3_failed_update_preserves_document (χ := Unit) (γ := String)
      (fun _ => "M") (fun _ => some ⟨[("s1", "backlog")], ()⟩) false true "P"
      [(filepathJoin "base" DefaultStatusPath, "orig")] "base" "s1" "done"
      [(filepathJoin "base" DefaultStatusPath, "orig")] .renameFailed rfl).2 rfl

/-- C9: a successful `Writer.UpdateStatus` (given the external
serialiser's round-trip fidelity) rewrites the sprint document to one
whose `development_status` differs from the parsed original only at the
targeted story, whose other top-level fields (including fields unknown to
the core) are semantically unchanged, leaves no temp file, and touches no
other file. -/
theorem C9_update_frame {χ γ : Type}
    (marshal : SprintStatus χ → γ) (unmarshal : γ → Option (SprintStatus χ))
    (partialData : γ) (fs : FS γ) (basePath storyKey : String)
    (newStatus : Status) (data : γ) (st : SprintStatus χ)
    (hround : ∀ d : SprintStatus χ, unmarshal (marshal d) = some d)
    (hvalid : newStatus.IsValid = true)
    (hread : fs.read (filepathJoin basePath DefaultStatusPath) = some data)
    (hparse : unmarshal data = some st)
    (hmem : (st.DevelopmentStatus.any fun p => p.1 == storyKey) = true) :
    (Writer.UpdateStatus marshal unmarshal false false partialData fs basePath
        storyKey newStatus).2 = none ∧
    (Writer.UpdateStatus marshal unmarshal false false partialData fs basePath
        storyKey newStatus).1.read (filepathJoin basePath DefaultStatusPath) =
      some (marshal (updatedDoc st storyKey newStatus)) ∧
    unmarshal (marshal (updatedDoc st storyKey newStatus)) =
      some (updatedDoc st storyKey newStatus) ∧
    (updatedDoc st storyKey newStatus).extra = st.extra ∧
    (updatedDoc st storyKey newStatus).DevelopmentStatus.lookup storyKey =
      some newStatus ∧
    (∀ k, k ≠ storyKey →
      (updatedDoc st storyKey newStatus).DevelopmentStatus.lookup k =
        st.DevelopmentStatus.lookup k) ∧
    (Writer.UpdateStatus marshal unmarshal false false partialData fs basePath
        storyKey newStatus).1.read
      (filepathJoin basePath DefaultStatusPath ++ ".tmp") = none ∧
    (∀ p, p ≠ filepathJoin basePath DefaultStatusPath →
      p ≠ filepathJoin basePath DefaultStatusPath ++ ".tmp" →
      (Writer.UpdateStatus marshal unmarshal false false partialData fs basePath
          storyKey newStatus).1.read p = fs.read p) := by
  have hres : Writer.UpdateStatus marshal unmarshal false false partialData fs
      basePath storyKey newStatus =
      ((((fs.write (filepathJoin basePath DefaultStatusPath ++ ".tmp")
          (marshal (updatedDoc st storyKey newStatus))).remove
          (filepathJoin basePath DefaultStatusPath ++ ".tmp")).write
          (filepathJoin basePath DefaultStatusPath)
          (marshal (updatedDoc st storyKey newStatus))), none) := by
    simp only [Writer.UpdateStatus, hvalid, hread, hparse, hmem, FS.rename,
      read_write_self, updatedDoc, not_true, Bool.false_eq_true, if_false,
      ite_false]
  rw [hres]
  refine ⟨rfl, ?_, hround _, rfl, ?_, ?_, ?_, ?_⟩
  · exact read_write_self _ _ _
  · exact lookup_setValue_self storyKey newStatus st.DevelopmentStatus hmem
  · exact fun k hk => lookup_setValue_ne storyKey newStatus k hk st.DevelopmentStatus
  · rw [read_write_ne _ _ _ (tmp_ne_base _)]
    exact read_remove_self _ _
  · intro p hp hptmp
    rw [read_write_ne _ _ _ hp, read_remove_ne _ _ hptmp,
      read_write_ne _ _ _ hptmp]

/-- Witness for C9: updating `s1` to `done` in a two-story document leaves
`s2` and the extra payload untouched. -/
theorem C9_update_frame_witness :
    (Writer.UpdateStatus (χ := Unit) (γ := SprintStatus Unit) id some false
        false ⟨[], ()⟩
        [(filepathJoin "base" DefaultStatusPath,
          ⟨[("s1", "backlog"), ("s2", "review")], ()⟩)]
        "base" "s1" "done").2 = none ∧
    (Writer.UpdateStatus (χ := Unit) (γ := SprintStatus Unit) id some false
        false ⟨[], ()⟩
        [(filepathJoin "base" DefaultStatusPath,
          ⟨[("s1", "backlog"), ("s2", "review")], ()⟩)]
        "base" "s1" "done").1.read (filepathJoin "base" DefaultStatusPath) =
      some (id (updatedDoc (χ := Unit)
        ⟨[("s1", "backlog"), ("s2", "review")], ()⟩ "s1" "done")) ∧
    (updatedDoc (χ := Unit) ⟨[("s1", "backlog"), ("s2", "review")], ()⟩
        "s1" "done").DevelopmentStatus.lookup "s1" = some "done" ∧
    (updatedDoc (χ := Unit) ⟨[("s1", "backlog"), ("s2", "review")], ()⟩
        "s1" "done").DevelopmentStatus.lookup "s2" = some "review" := by
  have h := C9_update_frame (χ := Unit) (γ := SprintStatus Unit) id some
    ⟨[], ()⟩
    [(filepathJoin "base" DefaultStatusPath,
      ⟨[("s1", "backlog"), ("s2", "review")], ()⟩)]
    "base" "s1" "done" ⟨[("s1", "backlog"), ("s2", "review")], ()⟩
    ⟨[("s1", "backlog"), ("s2", "review")], ()⟩
    (fun _ => rfl) (by decide) rfl rfl (by decide)
  exact ⟨h.1, h.2.1, h.2.2.2.2.1,
    (h.2.2.2.2.2.1 "s2" (by decide)).trans (by decide)⟩

/-! ## Epic story listing (`internal/status`, `Reader.GetEpicStories`)

The function reads the sprint document and iterates the
`development_status` map; the map becomes the association list of its
entries, iterated in list order (Go map iteration order is unspecified;
the claims do not depend on it because the story numbers involved are
distinct).  `sort.Slice` with `less = num i < num j` (unstable) becomes a
merge sort by the same key. -/

/-- Go `strings.HasPrefix` on the character lists of the strings. -/
def goHasPrefix (s pre : String) : Bool := pre.data.isPrefixOf s.data

/-- Go `strings.TrimPrefix` on the character lists of the strings. -/
def goTrimPrefix (s pre : String) : String :=
  if goHasPrefix s pre then ⟨s.data.drop pre.data.length⟩ else s

/-- Go `strconv.Atoi`: optional sign, at least one ASCII digit, and the
value must fit a 64-bit signed integer (out-of-range input is an error,
hence `none`). -/
def goAtoi (s : String) : Option Int :=
  match s.data with
  | [] => none
  | c :: rest =>
    let neg := c = '-'
    let digits := if c = '+' ∨ c = '-' then rest else c :: rest
    if digits.isEmpty then none
    else if digits.all Char.isDigit then
      let n : Nat := digits.foldl (fun acc d => acc * 10 + (d.toNat - '0'.toNat)) 0
      let v : Int := if neg then -(n : Int) else (n : Int)
      if -(2 ^ 63) ≤ v ∧ v ≤ 2 ^ 63 - 1 then some v else none
    else none

/-- `storyWithNum` — the local pairing of a key with its story number. -/
structure storyWithNum where
  key : String
  num : Int
deriving DecidableEq, Repr

/-- The comparison of the sort: ascending story number. -/
def storyLe (a b : storyWithNum) : Bool := decide (a.num ≤ b.num)

/-- `Reader.GetEpicStories` — collect the keys that start with
`{epicID}-` and whose following dash-separated segment `Atoi`-parses,
fail when none match, and otherwise return the keys sorted by story
number.  (`parts[0]` of Go's `SplitN(remainder, "-", 2)` is the segment
before the first dash; the `len(parts) < 1` guard is dead code since
`SplitN` with n = 2 always yields at least one element.) -/
def GetEpicStories (developmentStatus : List (String × String))
    (epicID : String) : Except String (List String) :=
  let pre := epicID ++ "-"
  let stories := developmentStatus.filterMap fun p =>
    if goHasPrefix p.1 pre then
      let remainder := goTrimPrefix p.1 pre
      let part0 : String := ⟨remainder.data.takeWhile fun c => c != '-'⟩
      match goAtoi part0 with
      | none => none
      | some num => some (⟨p.1, num⟩ : storyWithNum)
    else none
  if stories.isEmpty then .error ("no stories found for epic: " ++ epicID)
  else .ok ((stories.mergeSort storyLe).map storyWithNum.key)

/-- The story number the code extracts from a key for a given epic:
`some` exactly when the key starts with `{epicID}-` and the next
dash-separated segment `Atoi`-parses. -/
def epicKeyNum (epicID key : String) : Option Int :=
  if goHasPrefix key (epicID ++ "-") then
    goAtoi ⟨(goTrimPrefix key (epicID ++ "-")).data.takeWhile fun c => c != '-'⟩
  else none

/-- The claim's pattern, read literally: the key is
`{epic-id}-{N}-{anything}` with `N` parsing as a non-negative integer —
note the second dash is required. -/
def matchesSpecPattern (epicID key : String) : Prop :=
  ∃ seg rest : String, key = epicID ++ "-" ++ seg ++ "-" ++ rest ∧
    ∃ n : Int, goAtoi seg = some n ∧ 0 ≤ n

/-- The entry selector of `GetEpicStories` written through `epicKeyNum`. -/
theorem epicEntry_eq (epicID : String) (p : String × String) :
    (if goHasPrefix p.1 (epicID ++ "-") then
      match goAtoi ⟨(goTrimPrefix p.1 (epicID ++ "-")).data.takeWhile
          fun c => c != '-'⟩ with
      | none => none
      | some num => some (⟨p.1, num⟩ : storyWithNum)
    else none) = (epicKeyNum epicID p.1).map fun n => ⟨p.1, n⟩ := by
  unfold epicKeyNum
  split
  · cases goAtoi ⟨(goTrimPrefix p.1 (epicID ++ "-")).data.takeWhile
      fun c => c != '-'⟩ <;> rfl
  · rfl

/-- A string of length zero is empty. -/
theorem string_eq_empty_of_length_eq_zero {s : String} (h : s.length = 0) :
    s = "" := by
  cases s with
  | mk data =>
    simp only [String.length] at h
    simp [List.length_eq_zero.mp h]

unseal List.merge List.mergeSort in
/-- C8 counterexample: the key `6-3` — epic prefix followed by a numeric
segment but no second dash — does not match the claimed pattern
`{epic-id}-{N}-*`, yet `GetEpicStories` returns it. -/
theorem C8_epic_pattern_counterexample :
    GetEpicStories [("6-3", "backlog")] "6" = .ok ["6-3"] ∧
    ¬ matchesSpecPattern "6" "6-3" := by
  constructor
  · rfl
  · rintro ⟨seg, rest, heq, -⟩
    have hlen := congrArg String.length heq
    simp only [String.length_append] at hlen
    have h1 : ("6-3" : String).length = 3 := rfl
    have h2 : ("6" : String).length = 1 := rfl
    have h3 : ("-" : String).length = 1 := rfl
    rw [h1, h2, h3] at hlen
    have hseg : seg.length = 0 := by omega
    have hrest : rest.length = 0 := by omega
    rw [string_eq_empty_of_length_eq_zero hseg,
      string_eq_empty_of_length_eq_zero hrest] at heq
    exact absurd heq (by decide)

/-- C8 (amended): `GetEpicStories` fails with the no-stories error exactly
when no key of the document starts with `{epic-id}-` followed by an
`Atoi`-parseable segment (keys of the bare form `{epic-id}-{N}`, with no
second dash, count as matches); on success it returns exactly the matching
keys, each paired with its parsed story number, in ascending numeric
order (so 2 precedes 10). -/
theorem C8_epic_stories_amended (dev : List (String × String))
    (epicID : String) :
    (GetEpicStories dev epicID =
        .error ("no stories found for epic: " ++ epicID) ↔
      ∀ p ∈ dev, epicKeyNum epicID p.1 = none) ∧
    (∀ l, GetEpicStories dev epicID = .ok l →
      ∃ stories : List storyWithNum,
        stories.Perm (dev.filterMap fun p =>
          (epicKeyNum epicID p.1).map fun n => ⟨p.1, n⟩) ∧
        List.Pairwise (fun a b => a.num ≤ b.num) stories ∧
        l = stories.map storyWithNum.key) := by
  have hsel : GetEpicStories dev epicID =
      (if (dev.filterMap fun p =>
          (epicKeyNum epicID p.1).map fun n => (⟨p.1, n⟩ : storyWithNum)).isEmpty
        then .error ("no stories found for epic: " ++ epicID)
        else .ok (((dev.filterMap fun p =>
          (epicKeyNum epicID p.1).map fun n =>
            (⟨p.1, n⟩ : storyWithNum)).mergeSort storyLe).map
          storyWithNum.key)) := by
    unfold GetEpicStories
    simp only [epicEntry_eq]
  constructor
  · rw [hsel]
    constructor
    · intro h
      split at h
      case isTrue hemp =>
        intro p hp
        have := List.filterMap_eq_nil_iff.mp (List.isEmpty_iff.mp hemp) p hp
        simpa using this
      case isFalse => exact absurd h (by simp)
    · intro h
      rw [if_pos ?_]
      rw [List.isEmpty_iff]
      exact List.filterMap_eq_nil_iff.mpr fun p hp => by simp [h p hp]
  · intro l hl
    rw [hsel] at hl
    split at hl
    case isTrue => exact absurd hl (by simp)
    case isFalse =>
      refine ⟨(dev.filterMap fun p =>
        (epicKeyNum epicID p.1).map fun n => ⟨p.1, n⟩).mergeSort storyLe,
        List.mergeSort_perm _ _, ?_, ?_⟩
      · have h := @List.sorted_mergeSort storyWithNum storyLe
          (fun a b c h1 h2 => by
            simp only [storyLe, decide_eq_true_eq] at h1 h2 ⊢; omega)
          (fun a b => by
            simp only [storyLe, Bool.or_eq_true, decide_eq_true_eq]; omega)
          (dev.filterMap fun p => (epicKeyNum epicID p.1).map fun n => ⟨p.1, n⟩)
        refine h.imp ?_
        intro a b hab
        simpa [storyLe] using hab
      · injection hl with hl
        exact hl.symm

unseal List.merge List.mergeSort in
/-- Witness for C8 (amended): the spec's literal example — epic `6` over
keys `6-10-x, 6-2-y, 6-1-z, 7-1-q` — returns `[6-1-z, 6-2-y, 6-10-x]`
(numeric order, so 2 precedes 10), and a query matching nothing fails. -/
theorem C8_epic_stories_amended_witness :
    GetEpicStories
        [("6-10-x", "s"), ("6-2-y", "s"), ("6-1-z", "s"), ("7-1-q", "s")] "6" =
      .ok ["6-1-z", "6-2-y", "6-10-x"] ∧
    GetEpicStories [("8-1-a", "s")] "9" =
      .error ("no stories found for epic: " ++ "9") := by
  constructor
  · rfl
  · exact (C8_epic_stories_amended [("8-1-a", "s")] "9").1.mpr
      (fun p hp => by
        fin_cases hp
        rfl)

end Bmaduum
